import Mathlib

/-!
Verification development for the AskTube retrieval-augmented answering core.

Shallow embedding conventions:
* Python strings whose character structure matters (chunking, stripping,
  regex-style scanning) are modelled as `List Char`; opaque payload texts are
  `String`.
* Python floats that only ever hold exact values (timestamps, scores, backoff
  delays) are modelled as `ℚ`.
* Fallible Python code returns `Except`; an uncaught exception is `.error`.
* External collaborators that live outside the repository (the
  sentence-transformer embedding model, `hashlib.md5`, the Gemini client) are
  passed in as function parameters.
-/

namespace AskTube

/-! ### backend/app/services/rag_store.py — data model -/

/-- A chunk record as stored in the `.meta.json` file: either a bare string
(legacy metadata) or a dict with `text` / `start` / `end` keys. -/
inductive RawChunk where
  | str (text : String)
  | obj (text : String) (startSec : Option ℚ) (endSec : Option ℚ)
deriving DecidableEq, Repr

def RawChunk.getText : RawChunk → String
  | .str t => t
  | .obj t _ _ => t

def RawChunk.getStart : RawChunk → Option ℚ
  | .str _ => none
  | .obj _ s _ => s

def RawChunk.getEnd : RawChunk → Option ℚ
  | .str _ => none
  | .obj _ _ e => e

def RawChunk.isObj : RawChunk → Bool
  | .str _ => false
  | .obj _ _ _ => true

/-- Content of the per-video `.meta.json` file. `corrupt` is a file whose
content is not valid JSON, so `json.loads` raises on it. -/
inductive MetaContent where
  | corrupt
  | valid (chunks : List RawChunk)
deriving DecidableEq

/-- The two on-disk artifacts `{video_id}.index` / `{video_id}.meta.json` for a
fixed `video_id`. The index file is modelled by the stored vectors. `none`
means the file does not exist. -/
structure FsState where
  indexFile : Option (List (List ℚ))
  metaFile : Option MetaContent
deriving DecidableEq

/-- Exceptions that escape the rag_store read/build operations. -/
inductive RagErr where
  | jsonDecodeError
  | valueError (msg : String)
deriving DecidableEq, Repr

/-- Result dict produced by `retrieve` / `retrieve_by_timestamp`. -/
structure RetrievalResult where
  text : String
  score : Option ℚ
  chunk_index : Nat
  start_sec : Option ℚ
  end_sec : Option ℚ
deriving DecidableEq, Repr

/-! ### rag_store.py — semantic retrieval -/

/-- Inner product of two stored vectors. -/
def dot (u v : List ℚ) : ℚ := (List.zipWith (· * ·) u v).sum

/-- Model of `faiss.IndexFlatIP.search`: score every stored vector against the
query by inner product and return the best `k` `(index, score)` pairs in
descending score order; `mergeSort` is stable, so ties keep the lower index
first. -/
def faissSearch (vectors : List (List ℚ)) (q : List ℚ) (k : Nat) : List (Nat × ℚ) :=
  (((vectors.map (dot q)).enum).mergeSort (fun a b => decide (b.2 ≤ a.2))).take k

/-- `start` looked up for a result row: the source only reads timing when the
first metadata chunk is a dict (`isinstance(raw_chunks[0], dict)`). -/
def rawStartAt (raw : List RawChunk) (idx : Nat) : Option ℚ :=
  if (raw.head?.map RawChunk.isObj).getD false then (raw.get? idx).bind RawChunk.getStart
  else none

def rawEndAt (raw : List RawChunk) (idx : Nat) : Option ℚ :=
  if (raw.head?.map RawChunk.isObj).getD false then (raw.get? idx).bind RawChunk.getEnd
  else none

/-- `retrieve(video_id, query, top_k)`. `embedQ` is the external
sentence-transformer encoding of the query composed with `_normalize` (the
model lives outside the repository and `_normalize` is real-valued float
math; retrieval order only depends on the resulting scores). The function
returns `.error` exactly where the Python raises: `json.loads` on a corrupted
metadata file is NOT wrapped in try/except in the source. -/
def retrieve (embedQ : String → List ℚ) (st : FsState) (query : String) (top_k : Nat) :
    Except RagErr (List RetrievalResult) :=
  match st.indexFile, st.metaFile with
  | none, _ => .ok []
  | some _, none => .ok []
  | some _, some .corrupt => .error .jsonDecodeError
  | some vecs, some (.valid raw) =>
    let chunks_text := raw.map RawChunk.getText
    if chunks_text.isEmpty then .ok []
    else
      let q := embedQ query
      let k := min top_k chunks_text.length
      let hits := faissSearch vecs q k
      .ok (hits.filterMap fun p =>
        if p.1 < chunks_text.length then
          some { text := chunks_text.getD p.1 ""
                 score := some p.2
                 chunk_index := p.1
                 start_sec := rawStartAt raw p.1
                 end_sec := rawEndAt raw p.1 }
        else none)

/-- `get_index_stats(video_id)`: chunk count; its body is wrapped in
try/except, so a corrupted metadata file yields 0 instead of raising. -/
def get_index_stats (st : FsState) : Nat :=
  match st.indexFile, st.metaFile with
  | none, _ => 0
  | some _, none => 0
  | some _, some .corrupt => 0
  | some _, some (.valid raw) => raw.length

/-! ### rag_store.py — timestamp retrieval -/

/-- Normalized chunk used inside `retrieve_by_timestamp`. -/
structure NChunk where
  text : String
  startSec : Option ℚ
  endSec : Option ℚ
deriving DecidableEq, Repr

def normalizeChunk : RawChunk → NChunk
  | .str t => ⟨t, none, none⟩
  | .obj t s e => ⟨t, s, e⟩

/-- `contains(i)`: chunk has both times and `s <= time_sec <= e`. -/
def chunkContains (c : NChunk) (t : ℚ) : Bool :=
  match c.startSec, c.endSec with
  | some s, some e => decide (s ≤ t) && decide (t ≤ e)
  | _, _ => false

/-- First index whose chunk contains `t` (the `for i in range(len): … break`
loop). -/
def findContainingFrom (t : ℚ) : Nat → List NChunk → Option Nat
  | _, [] => none
  | i, c :: cs => if chunkContains c t then some i else findContainingFrom t (i + 1) cs

def findContaining (chunks : List NChunk) (t : ℚ) : Option Nat :=
  findContainingFrom t 0 chunks

/-- Python `abs`. -/
def pyAbs (q : ℚ) : ℚ := if q < 0 then -q else q

/-- One step of the nearest-start fallback loop: the accumulator is
`(best_delta, best_i)`, updated only on a strict improvement. -/
def nearestStep (t : ℚ) (acc : ℚ × Option Nat) (ic : Nat × NChunk) : ℚ × Option Nat :=
  match ic.2.startSec with
  | none => acc
  | some s => if pyAbs (s - t) < acc.1 then (pyAbs (s - t), some ic.1) else acc

/-- Nearest-start fallback with the source's `best_delta = 1e9` sentinel. -/
def nearestStart (chunks : List NChunk) (t : ℚ) : Option Nat :=
  (chunks.enum.foldl (nearestStep t) ((10 : ℚ) ^ 9, none)).2

def mkTsResult (chunks : List NChunk) (j : Nat) : RetrievalResult :=
  { text := ((chunks.get? j).map NChunk.text).getD ""
    score := none
    chunk_index := j
    start_sec := (chunks.get? j).bind NChunk.startSec
    end_sec := (chunks.get? j).bind NChunk.endSec }

/-- `for j in range(max(0, idx - window), min(len - 1, idx + window) + 1)`.
Nat subtraction supplies the `max(0, ·)` clamp. -/
def windowSlice (chunks : List NChunk) (idx window : Nat) : List RetrievalResult :=
  let start_i := idx - window
  let end_i := min (chunks.length - 1) (idx + window)
  (List.range' start_i (end_i + 1 - start_i)).map (mkTsResult chunks)

/-- `retrieve_by_timestamp(video_id, time_sec, window)`. Like `retrieve`, the
`json.loads` call is not guarded, so a corrupted metadata file raises. -/
def retrieve_by_timestamp (st : FsState) (t : ℚ) (window : Nat) :
    Except RagErr (List RetrievalResult) :=
  match st.indexFile, st.metaFile with
  | none, _ => .ok []
  | some _, none => .ok []
  | some _, some .corrupt => .error .jsonDecodeError
  | some _, some (.valid raw) =>
    if raw.isEmpty then .ok []
    else
      let chunks := raw.map normalizeChunk
      match findContaining chunks t with
      | some idx => .ok (windowSlice chunks idx window)
      | none =>
        match nearestStart chunks t with
        | none => .ok []
        | some idx => .ok (windowSlice chunks idx window)

/-! ### rag_store.py — chunking and build -/

/-- Python `str.strip()` on a character list. -/
def pyStrip (l : List Char) : List Char :=
  ((l.dropWhile Char.isWhitespace).reverse.dropWhile Char.isWhitespace).reverse

/-- `_chunk_text`: fixed 800-character windows, each stripped; windows that
strip to nothing are dropped, and no timing metadata is produced. -/
def chunkTextWindows : List Char → List (List Char)
  | [] => []
  | c :: cs =>
    let piece := pyStrip ((c :: cs).take 800)
    let rest := cs.drop 799
    if piece.isEmpty then chunkTextWindows rest else piece :: chunkTextWindows rest
termination_by l => l.length
decreasing_by
  all_goals simp only [List.length_drop, List.length_cons]
  all_goals omega

def chunk_text (text : List Char) : List NChunk :=
  (chunkTextWindows text).map fun p => ⟨p.asString, none, none⟩

/-- A time-coded transcript segment `{text, start, duration}` as supplied by
the transcript collaborator. -/
structure Segment where
  text : List Char
  startSec : Option ℚ
  duration : Option ℚ

/-- `" ".join(parts)`. -/
def joinSpace : List (List Char) → List Char
  | [] => []
  | [x] => x
  | x :: xs => x ++ ' ' :: joinSpace xs

/-- Accumulator of the `_chunk_segments` loop. -/
structure SegAcc where
  chunks : List NChunk
  accText : List (List Char)
  accLen : Nat
  currentStart : Option ℚ
  lastEnd : Option ℚ

/-- One iteration of the `_chunk_segments` loop (chunk budget 800 chars). -/
def chunkSegStep (st : SegAcc) (seg : Segment) : SegAcc :=
  let seg_text := pyStrip seg.text
  if seg_text.isEmpty then st
  else
    let seg_start := seg.startSec.getD 0
    let seg_end := seg_start + seg.duration.getD 0
    let current_start := st.currentStart.getD seg_start
    if st.accLen + seg_text.length + (if st.accText.isEmpty then 0 else 1) > 800 ∧
        ¬ st.accText.isEmpty then
      { chunks := st.chunks ++ [⟨(pyStrip (joinSpace st.accText)).asString, some current_start, st.lastEnd⟩]
        accText := [seg_text], accLen := seg_text.length + 1
        currentStart := some seg_start, lastEnd := some seg_end }
    else
      { chunks := st.chunks
        accText := st.accText ++ [seg_text]
        accLen := st.accLen + seg_text.length + 1
        currentStart := some current_start
        lastEnd := some seg_end }

/-- `_chunk_segments`: accumulate segments by character budget, flush with the
accumulated `[start, end]` timing; final partial chunk flushed at the end. -/
def chunk_segments (segments : List Segment) : List NChunk :=
  let st := segments.foldl chunkSegStep ⟨[], [], 0, none, none⟩
  if st.accText.isEmpty then st.chunks
  else st.chunks ++ [⟨(pyStrip (joinSpace st.accText)).asString, st.currentStart, st.lastEnd⟩]

/-- `build_index` as a transformer of the per-video file state. `embed` is the
external sentence-transformer batch encoding composed with `_normalize`.
The `ValueError` on an empty chunk list is raised before either artifact is
written, so the error branch leaves the file state untouched. -/
def build_index (embed : List String → List (List ℚ)) (st : FsState)
    (transcript_text : Option (List Char)) (transcript_segments : Option (List Segment)) :
    Except RagErr Unit × FsState :=
  let chunk_objects :=
    match transcript_segments with
    | some segs =>
      if segs.isEmpty then chunk_text (transcript_text.getD []) else chunk_segments segs
    | none => chunk_text (transcript_text.getD [])
  let chunks := chunk_objects.map NChunk.text
  if chunks.isEmpty then (.error (.valueError "No transcript content to index"), st)
  else
    let emb := embed chunks
    (.ok (),
      { indexFile := some emb
        metaFile := some (.valid (chunk_objects.map fun c => .obj c.text c.startSec c.endSec)) })

/-! ### config.py — defaults used by the indexing pipeline -/

namespace Settings

/-- `Settings.USE_RAG` default. -/
def USE_RAG : Bool := true

/-- `Settings.CHUNK_TOKEN_TARGET` default. -/
def CHUNK_TOKEN_TARGET : Nat := 220

/-- `Settings.CHUNK_OVERLAP` default. -/
def CHUNK_OVERLAP : Nat := 40

end Settings

/-! ### rag_chunker.py -/

namespace Chunker

/-- Python `str.split()` (split on whitespace runs, no empty parts). -/
def pySplitWsAux : List Char → List Char → List (List Char)
  | acc, [] => if acc.isEmpty then [] else [acc.reverse]
  | acc, c :: cs =>
    if c.isWhitespace then
      if acc.isEmpty then pySplitWsAux [] cs else acc.reverse :: pySplitWsAux [] cs
    else pySplitWsAux (c :: acc) cs

def pySplitWs (l : List Char) : List (List Char) := pySplitWsAux [] l

/-- `approximate_token_count`: `int(len(text.split()) * 0.75)`; the product is
exact in floats and `int` truncates, i.e. `3 * words / 4` in `Nat`.
(source constant `WORD_TOKEN_RATIO = 0.75`). -/
def approximate_token_count (text : List Char) : Nat :=
  3 * (pySplitWs text).length / 4

def isTermPunct (c : Char) : Bool := c = '.' || c = '!' || c = '?'

/-- `re.split(r"(?<=[.!?])\s+", text)`: split at each maximal whitespace run
that directly follows terminal punctuation. First argument: are we inside the
whitespace run of a separator; second: current part, reversed (its head is the
previous character). -/
def splitSentAux : Bool → List Char → List Char → List (List Char)
  | _, acc, [] => [acc.reverse]
  | true, acc, c :: cs =>
    if c.isWhitespace then splitSentAux true acc cs
    else splitSentAux false (c :: acc) cs
  | false, acc, c :: cs =>
    if c.isWhitespace && (acc.head?.map isTermPunct).getD false then
      acc.reverse :: splitSentAux true [] cs
    else splitSentAux false (c :: acc) cs

/-- The tiny-fragment merge loop of `split_into_sentences` (parts shorter than
2 characters are glued onto the previous part with a space); accumulator is
reversed. -/
def mergeTinyAux : List (List Char) → List (List Char) → List (List Char)
  | acc, [] => acc.reverse
  | [], p :: ps => mergeTinyAux [p] ps
  | last :: rest, p :: ps =>
    if p.length < 2 then mergeTinyAux ((last ++ ' ' :: p) :: rest) ps
    else mergeTinyAux (p :: last :: rest) ps

def split_into_sentences (text : List Char) : List (List Char) :=
  (mergeTinyAux [] (splitSentAux false [] (AskTube.pyStrip text))).filter fun s => !s.isEmpty

/-- A chunk produced by `chunk_transcript`:
`{chunk_id, text, token_estimate}`. -/
structure TChunk where
  chunk_id : Nat
  text : List Char
  token_estimate : Nat
deriving DecidableEq, Repr

/-- The overlap-tail loop: walk the closed chunk's sentences backwards,
keeping sentences while the overlap token budget is not exceeded; first
argument is `reversed(cur)`. -/
def overlapTailAux (overlap : Nat) : List (List Char) → List (List Char) → Nat →
    List (List Char) × Nat
  | [], tail, tt => (tail, tt)
  | s :: rest, tail, tt =>
    let t := approximate_token_count s
    if tt + t > overlap then (tail, tt)
    else overlapTailAux overlap rest (s :: tail) (tt + t)

/-- Loop state of `chunk_transcript`: closed chunks (reversed), current
sentence buffer, its token total, next chunk id. -/
structure ChunkAcc where
  chunks : List TChunk
  cur : List (List Char)
  cur_tokens : Nat
  chunk_id : Nat

def chunkStep (target overlap : Nat) (st : ChunkAcc) (sent : List Char) : ChunkAcc :=
  let sent_tokens := approximate_token_count sent
  let st :=
    if ¬ st.cur.isEmpty ∧ st.cur_tokens + sent_tokens > target then
      let text := AskTube.pyStrip (AskTube.joinSpace st.cur)
      let chunks := (⟨st.chunk_id, text, st.cur_tokens⟩ : TChunk) :: st.chunks
      if overlap > 0 then
        let (tail, tt) := overlapTailAux overlap st.cur.reverse [] 0
        ⟨chunks, tail, tt, st.chunk_id + 1⟩
      else ⟨chunks, [], 0, st.chunk_id + 1⟩
    else st
  { st with cur := st.cur ++ [sent], cur_tokens := st.cur_tokens + sent_tokens }

/-- `chunk_transcript` body after parameter resolution. -/
def chunkCore (target overlap : Nat) (text : List Char) : List TChunk :=
  let sentences := split_into_sentences text
  let st := sentences.foldl (chunkStep target overlap) ⟨[], [], 0, 1⟩
  let final :=
    if ¬ st.cur.isEmpty then
      (⟨st.chunk_id, AskTube.pyStrip (AskTube.joinSpace st.cur), st.cur_tokens⟩ : TChunk) :: st.chunks
    else st.chunks
  final.reverse

/-- `target_tokens = target_tokens or settings.CHUNK_TOKEN_TARGET` (and the
same for the overlap): Python `or` replaces both `None` and `0` by the
configured default. -/
def resolveParam (v : Option Nat) (dflt : Nat) : Nat :=
  match v with
  | none => dflt
  | some 0 => dflt
  | some n => n

def chunk_transcript (transcript : List Char) (target_tokens overlap_tokens : Option Nat) :
    List TChunk :=
  chunkCore (resolveParam target_tokens Settings.CHUNK_TOKEN_TARGET)
    (resolveParam overlap_tokens Settings.CHUNK_OVERLAP) transcript

end Chunker

/-! ### rag_faiss_store.py / rag_indexer.py -/

namespace Indexer

/-- One metadata record written by `index_transcript`. -/
structure MD where
  video_id : String
  chunk_id : Nat
  token_estimate : Nat
  transcript_hash : String
  text : List Char
deriving DecidableEq, Repr

/-- Persisted state of the (single, shared) `FaissVectorStore`: the stored
vectors and the parallel metadata list. -/
structure StoreState where
  vectors : List (List ℚ)
  metadata : List MD
deriving DecidableEq, Repr

inductive IndexOutcome where
  | skippedDisabled
  | skippedAlready (hash : String)
  | indexed (chunks : Nat) (hash : String)
deriving DecidableEq, Repr

/-- `FaissVectorStore.add`: `np.array(vectors)` must be a 2-d array of width
`dim` (an empty vector list builds a 1-d array and raises the dimension
mismatch as well). -/
def storeAdd (dim : Nat) (st : StoreState) (vecs : List (List ℚ)) (mds : List MD) :
    Except String StoreState :=
  if vecs.isEmpty then .error "Embedding dimension mismatch"
  else if vecs.all fun v => v.length = dim then
    .ok ⟨st.vectors ++ vecs, st.metadata ++ mds⟩
  else .error "Embedding dimension mismatch"

/-- `index_transcript(video_id, transcript_text, force_reindex)` from
rag_indexer.py. `embed` models `embed_texts` (the external
sentence-transformer, normalized) and `hashFn` models `hashlib.md5` from the
standard library; `dim` is the model's embedding dimensionality. `persisted`
is the on-disk store read by `store.load()`; the returned state is what is on
disk after the call (`store.save()` only runs on the indexed path). -/
def index_transcript (embed : List (List Char) → List (List ℚ))
    (hashFn : List Char → String) (dim : Nat) (persisted : StoreState)
    (video_id : String) (transcript_text : List Char) (force_reindex : Bool) :
    Except String (IndexOutcome × StoreState) :=
  if ¬ Settings.USE_RAG then .ok (.skippedDisabled, persisted)
  else
    let transcript_hash := hashFn transcript_text
    let store := persisted
    if ¬ force_reindex ∧ store.metadata.any fun md =>
        md.video_id = video_id ∧ md.transcript_hash = transcript_hash then
      .ok (.skippedAlready transcript_hash, persisted)
    else
      let store := if force_reindex ∧ ¬ store.metadata.isEmpty then (⟨[], []⟩ : StoreState) else store
      let chunks := Chunker.chunk_transcript transcript_text
        (some Settings.CHUNK_TOKEN_TARGET) (some Settings.CHUNK_OVERLAP)
      let texts := chunks.map Chunker.TChunk.text
      let vectors := embed texts
      let metadatas := chunks.map fun c =>
        (⟨video_id, c.chunk_id, c.token_estimate, transcript_hash, c.text⟩ : MD)
      match storeAdd dim store vectors metadatas with
      | .error e => .error e
      | .ok store' => .ok (.indexed chunks.length transcript_hash, store')

end Indexer

/-! ### backend/app/services/llm_backend.py — Gemini retry loop -/

namespace LlmBackend

/-- `pat in s` for strings (Python substring containment). -/
def listStartsWith : List Char → List Char → Bool
  | [], _ => true
  | _ :: _, [] => false
  | p :: ps, c :: cs => p = c && listStartsWith ps cs

def listContainsSeq (pat : List Char) : List Char → Bool
  | [] => listStartsWith pat []
  | c :: cs => listStartsWith pat (c :: cs) || listContainsSeq pat cs

def strContains (s pat : String) : Bool := listContainsSeq pat.toList s.toList

/-- `"429" in msg or "Resource exhausted" in msg`. -/
def isRateLimitSignal (msg : String) : Bool :=
  strContains msg "429" || strContains msg "Resource exhausted"

/-- Exceptions observable from `GeminiBackend.generate`. The constructor
`rateLimitExceededError` is the distinct error class named by the spec's
taxonomy; the source never defines or raises such a class. -/
inductive PyExn where
  | runtimeError (msg : String)
  | providerError (msg : String)
  | rateLimitExceededError (msg : String)
deriving DecidableEq, Repr

def isRateLimitExceededExn : PyExn → Bool
  | .rateLimitExceededError _ => true
  | _ => false

/-- Observable outcome of one `generate` call: the returned value or escaped
exception, the `time.sleep` durations in order, and how many provider
invocations were made. -/
structure GenOutcome where
  result : Except PyExn String
  sleeps : List ℚ
  attempts : Nat
deriving Repr

instance : DecidableEq (Except PyExn String) := fun a b =>
  match a, b with
  | .ok x, .ok y => decidable_of_iff (x = y) (by simp)
  | .error x, .error y => decidable_of_iff (x = y) (by simp)
  | .ok _, .error _ => isFalse (by simp)
  | .error _, .ok _ => isFalse (by simp)

instance : DecidableEq GenOutcome := fun a b =>
  decidable_of_iff (a.result = b.result ∧ a.sleeps = b.sleeps ∧ a.attempts = b.attempts)
    (by cases a; cases b; simp [GenOutcome.mk.injEq])

/-- `for attempt in range(retries)` with `retries = 6`, `backoff = 2.0`:
rate-limited errors sleep `backoff * 2 ** attempt + jitter` and continue, any
other error propagates at once, and falling off the loop raises
`RuntimeError("Exceeded retry attempts for Gemini")`. `invoke` is the
external `llm.invoke` (its outcome per attempt index) and `jitter` the draw of
`random.uniform(0, 0.4)` per attempt. -/
def geminiRetryLoop (invoke : Nat → Except String String) (jitter : Nat → ℚ) :
    Nat → Nat → GenOutcome
  | _, 0 => ⟨.error (.runtimeError "Exceeded retry attempts for Gemini"), [], 0⟩
  | attempt, rem + 1 =>
    match invoke attempt with
    | .ok content => ⟨.ok content, [], 1⟩
    | .error e =>
      if isRateLimitSignal e then
        let out := geminiRetryLoop invoke jitter (attempt + 1) rem
        ⟨out.result, (2 * 2 ^ attempt + jitter attempt) :: out.sleeps, out.attempts + 1⟩
      else ⟨.error (.providerError e), [], 1⟩

/-- `GeminiBackend.generate` (retry portion). -/
def gemini_generate (invoke : Nat → Except String String) (jitter : Nat → ℚ) : GenOutcome :=
  geminiRetryLoop invoke jitter 0 6

end LlmBackend

/-! ### conversation_manager.py -/

namespace Conversation

/-- A stored chat message (`role`, `content`, `timestamp`, optional
`metadata`). -/
structure PyMessage where
  role : String
  content : String
  timestamp : String
  metadata : Option String := none
deriving DecidableEq, Repr

/-- Python `l[-n:]`. For `n = 0` the slice is `l[0:]`, i.e. the whole list —
the negative-zero slice quirk. -/
def pyTailSlice {α : Type} (n : Nat) (l : List α) : List α :=
  if n = 0 then l else l.drop (l.length - n)

/-- The append-and-trim step of `ConversationManager.add_message`. -/
def add_message_list (max_history : Nat) (msgs : List PyMessage) (m : PyMessage) :
    List PyMessage :=
  let l := msgs ++ [m]
  if l.length > max_history * 2 then pyTailSlice (max_history * 2) l else l

/-- Persisted conversation file for one `(user_id, video_id)` pair. -/
inductive ConvFile where
  | corrupt
  | valid (messages : List PyMessage) (transcript : String)
deriving DecidableEq

/-- `load_conversation`: a missing or corrupted file yields an empty
conversation. -/
def loadedMessages : Option ConvFile → List PyMessage
  | none => []
  | some .corrupt => []
  | some (.valid ms _) => ms

def loadedTranscript : Option ConvFile → String
  | none => ""
  | some .corrupt => ""
  | some (.valid _ t) => t

/-- `add_message`: load, append, trim, save. Returns the file content after
the save. -/
def add_message (max_history : Nat) (file : Option ConvFile) (m : PyMessage) : ConvFile :=
  .valid (add_message_list max_history (loadedMessages file) m) (loadedTranscript file)

end Conversation

/-! ### backend/app/services/chat_service.py — timestamp parsing and routing

The four `re.search` calls of `_parse_timestamp_seconds` are hand-compiled
into backtracking scanners over `List Char`, preserving the engine's
behaviour on these patterns: leftmost match wins, optional groups are tried
present-first, quantified alternatives longest-first. -/

namespace Chat

/-- Python `\w` (ASCII range, as produced by these messages). -/
def isWordChar (c : Char) : Bool := c.isAlphanum || c = '_'

def isWordOpt : Option Char → Bool
  | some c => isWordChar c
  | none => false

/-- `\b` between the previous character and the next one. -/
def boundary (prev next : Option Char) : Bool := isWordOpt prev != isWordOpt next

/-- `\b` directly after a word character: the next character must not be a
word character (or the input ends). -/
def boundaryAfterWord (l : List Char) : Bool := !isWordOpt l.head?

def digitVal (c : Char) : Nat := c.toNat - 48

def digitsVal (ds : List Char) : Nat := ds.foldl (fun n c => 10 * n + digitVal c) 0

/-- Candidate parses of `\d{1,2}` in the engine's preference order (greedy:
two digits, then one); each candidate is `(value, rest)`. -/
def d12cands : List Char → List (Nat × List Char)
  | a :: b :: rest =>
    if a.isDigit && b.isDigit then [(digitsVal [a, b], rest), (digitVal a, b :: rest)]
    else if a.isDigit then [(digitVal a, b :: rest)] else []
  | [a] => if a.isDigit then [(digitVal a, [])] else []
  | [] => []

/-- `\d{2}` (exactly two digits). -/
def d2exact : List Char → Option (Nat × List Char)
  | a :: b :: rest => if a.isDigit && b.isDigit then some (digitsVal [a, b], rest) else none
  | _ => none

/-- `\d+`, maximal munch. In every use below the pattern continues with `\s*`
followed by a non-digit requirement, so a shorter munch would leave a digit
where a non-digit is required; maximal munch is equivalent to full
backtracking here. -/
def dPlus (l : List Char) : Option (Nat × List Char) :=
  let ds := l.takeWhile Char.isDigit
  if ds.isEmpty then none else some (digitsVal ds, l.drop ds.length)

/-- `\s*`, maximal munch. Every use below continues with a requirement that a
whitespace character cannot satisfy, so this is equivalent to full
backtracking. -/
def skipSpaces (l : List Char) : List Char := l.dropWhile Char.isWhitespace

/-- Match a literal character sequence, returning the rest. -/
def dropLit : List Char → List Char → Option (List Char)
  | [], l => some l
  | _ :: _, [] => none
  | p :: ps, c :: cs => if p = c then dropLit ps cs else none

/-- `re.search`: try the pattern at every position from the left, first match
wins. `tryAt` receives the character before the position (for `\b`) and the
remaining input. -/
def reSearch (tryAt : Option Char → List Char → Option Nat) :
    Option Char → List Char → Option Nat
  | prev, [] => tryAt prev []
  | prev, c :: cs =>
    match tryAt prev (c :: cs) with
    | some v => some v
    | none => reSearch tryAt (some c) cs

/-- `(\d{1,2}):(\d{2})\b` — the minute/second tail of pattern (a). -/
def clockMS (l : List Char) : Option Nat :=
  (d12cands l).findSome? fun p =>
    match p.2 with
    | ':' :: r2 =>
      (d2exact r2).bind fun q =>
        if boundaryAfterWord q.2 then some (p.1 * 60 + q.1) else none
    | _ => none

/-- Pattern (a), `\b(?:(\d{1,2}):)?(\d{1,2}):(\d{2})\b`, attempted at one
position; the optional hour group is tried first. -/
def tryClockAt (prev : Option Char) (l : List Char) : Option Nat :=
  if boundary prev l.head? then
    match
      (d12cands l).findSome? fun p =>
        match p.2 with
        | ':' :: r2 => (clockMS r2).map fun ms => p.1 * 3600 + ms
        | _ => none
    with
    | some v => some v
    | none => clockMS l
  else none

def matchClock (msg : List Char) : Option Nat := reSearch tryClockAt none msg

/-- Spelling suffixes after the literal `s` in `s(?:ec(?:ond)?s?)?`, in greedy
order. -/
def secSuffixes : List (List Char) :=
  ["econds".toList, "econd".toList, "ecs".toList, "ec".toList, []]

/-- The mandatory seconds component `(\d+)\s*s(?:ec(?:ond)?s?)?` followed by
`\b` — the tail of pattern (b) and the whole of pattern (d). -/
def secPart (l : List Char) : Option (Nat × List Char) :=
  (dPlus l).bind fun p =>
    match skipSpaces p.2 with
    | 's' :: r3 =>
      secSuffixes.findSome? fun suf =>
        (dropLit suf r3).bind fun r4 =>
          if boundaryAfterWord r4 then some (p.1, r4) else none
    | _ => none

def minSuffixes : List (List Char) :=
  ["inutes".toList, "inute".toList, "ins".toList, "in".toList, []]

def hourSuffixes : List (List Char) := ["ours".toList, "our".toList, []]

/-- Pattern (b),
`\b(?:(\d+)\s*h(?:ours?)?\s*)?(?:(\d+)\s*m(?:in(?:ute)?s?)?\s*)?(?:(\d+)\s*s(?:ec(?:ond)?s?)?)\b`,
attempted at one position, with full backtracking over the optional hour and
minute groups (present before absent) and their suffix spellings (longer
before shorter). Returns `h*3600 + mi*60 + s`. -/
def tryCompoundAt (prev : Option Char) (l : List Char) : Option Nat :=
  if boundary prev l.head? then
    let sPart : Nat → Nat → List Char → Option Nat := fun h mi r =>
      (secPart r).map fun q => h * 3600 + mi * 60 + q.1
    let mPart : Nat → List Char → Option Nat := fun h r =>
      match
        (dPlus r).bind fun p =>
          match skipSpaces p.2 with
          | 'm' :: r3 =>
            minSuffixes.findSome? fun suf =>
              (dropLit suf r3).bind fun r4 => sPart h p.1 (skipSpaces r4)
          | _ => none
      with
      | some v => some v
      | none => sPart h 0 r
    match
      (dPlus l).bind fun p =>
        match skipSpaces p.2 with
        | 'h' :: r3 =>
          hourSuffixes.findSome? fun suf =>
            (dropLit suf r3).bind fun r4 => mPart p.1 (skipSpaces r4)
        | _ => none
    with
    | some v => some v
    | none => mPart 0 l
  else none

/-- Pattern (b) with the source's `if h or mi or s:` guard: a leftmost match
whose captured groups are all zero does not return a value and the parser
falls through to pattern (c). -/
def matchCompound (msg : List Char) : Option Nat :=
  (reSearch tryCompoundAt none msg).bind fun v => if v = 0 then none else some v

/-- `\b(\d+)\s*min(?:ute)?s?\b` at one position. -/
def tryMinutesAt (prev : Option Char) (l : List Char) : Option Nat :=
  if boundary prev l.head? then
    (dPlus l).bind fun p =>
      match dropLit "min".toList (skipSpaces p.2) with
      | some r3 =>
        ["utes".toList, "ute".toList, "s".toList, ([] : List Char)].findSome? fun suf =>
          (dropLit suf r3).bind fun r4 =>
            if boundaryAfterWord r4 then some p.1 else none
      | none => none
  else none

/-- `\b(\d+)\s*sec(?:ond)?s?\b` at one position. -/
def trySecondsAt (prev : Option Char) (l : List Char) : Option Nat :=
  if boundary prev l.head? then
    (dPlus l).bind fun p =>
      match dropLit "sec".toList (skipSpaces p.2) with
      | some r3 =>
        ["onds".toList, "ond".toList, "s".toList, ([] : List Char)].findSome? fun suf =>
          (dropLit suf r3).bind fun r4 =>
            if boundaryAfterWord r4 then some p.1 else none
      | none => none
  else none

/-- Pattern (c): minutes anywhere in the message, with an independent search
for an optional `N sec…` term anywhere in the message. -/
def matchNaturalMinutes (msg : List Char) : Option Nat :=
  (reSearch tryMinutesAt none msg).map fun minutes =>
    minutes * 60 + (reSearch trySecondsAt none msg).getD 0

/-- Pattern (d) at one position. -/
def tryBareSecondsAt (prev : Option Char) (l : List Char) : Option Nat :=
  if boundary prev l.head? then (secPart l).map fun p => p.1 else none

/-- Pattern (d): bare `N s…` seconds. -/
def matchBareSeconds (msg : List Char) : Option Nat :=
  reSearch tryBareSecondsAt none msg

/-- `msg = message.lower()` (character-wise ASCII lowering, which is what
`str.lower` does on the ASCII text these patterns can match). -/
def pyLower (message : String) : List Char :=
  message.toList.map Char.toLower

/-- `_parse_timestamp_seconds`: lowercase the message, then the four patterns
in priority order; the first one that yields a value wins. -/
def parse_timestamp_seconds (message : String) : Option Nat :=
  let msg := pyLower message
  match matchClock msg with
  | some v => some v
  | none =>
    match matchCompound msg with
    | some v => some v
    | none =>
      match matchNaturalMinutes msg with
      | some v => some v
      | none => matchBareSeconds msg

/-- Retrieval decision taken by `chat_once`. -/
inductive RouteDecision where
  | timestamp (ts : Nat) (window : Int)
  | semantic (top_k : Nat)
deriving DecidableEq, Repr

/-- `payload.window if (payload.window is not None and payload.window >= 0)
else 1`. -/
def effectiveWindow (window : Option Int) : Int :=
  match window with
  | some w => if 0 ≤ w then w else 1
  | none => 1

/-- `payload.top_k or 6`: Python `or` treats both `None` and `0` as unset. -/
def effectiveTopK (top_k : Option Nat) : Nat :=
  match top_k with
  | some 0 => 6
  | some (k + 1) => k + 1
  | none => 6

/-- The retrieval-mode selection of `chat_once`: timestamp mode with the
effective window when the message parses to a timestamp, else semantic mode
with the effective top-k. -/
def routeQuery (message : String) (window : Option Int) (top_k : Option Nat) : RouteDecision :=
  match parse_timestamp_seconds message with
  | some ts => .timestamp ts (effectiveWindow window)
  | none => .semantic (effectiveTopK top_k)

end Chat

/-! ## Helper lemmas -/

lemma pyAbs_eq_abs (q : ℚ) : pyAbs q = |q| := by
  unfold pyAbs
  split
  · rename_i h
    rw [abs_of_neg h]
  · rename_i h
    rw [abs_of_nonneg (le_of_not_lt h)]

lemma pyStrip_ws {l : List Char} (h : ∀ c ∈ l, c.isWhitespace = true) : pyStrip l = [] := by
  have h1 : l.dropWhile Char.isWhitespace = [] := List.dropWhile_eq_nil_iff.mpr h
  simp [pyStrip, h1]

lemma chunkTextWindows_ws (l : List Char) (h : ∀ c ∈ l, c.isWhitespace = true) :
    chunkTextWindows l = [] := by
  suffices H : ∀ (n : Nat) (l : List Char), l.length = n →
      (∀ c ∈ l, c.isWhitespace = true) → chunkTextWindows l = [] from H l.length l rfl h
  intro n
  induction n using Nat.strong_induction_on with
  | _ n ih =>
    intro l hn hws
    cases l with
    | nil => simp [chunkTextWindows]
    | cons c cs =>
      have hpiece : pyStrip (c :: List.take 799 cs) = [] := by
        refine pyStrip_ws fun x hx => hws x ?_
        rcases List.mem_cons.mp hx with rfl | hx
        · exact List.mem_cons_self _ _
        · exact List.mem_cons_of_mem _ (List.take_subset _ _ hx)
      have hrec : chunkTextWindows (cs.drop 799) = [] := by
        refine ih (cs.drop 799).length ?_ _ rfl fun x hx =>
          hws x (List.mem_cons_of_mem _ (List.drop_subset _ _ hx))
        subst hn
        simp only [List.length_drop, List.length_cons]
        omega
      simp [chunkTextWindows, hpiece, hrec]

lemma findContainingFrom_all_false (t : ℚ) :
    ∀ (cs : List NChunk) (i : Nat), (∀ c ∈ cs, chunkContains c t = false) →
      findContainingFrom t i cs = none := by
  intro cs
  induction cs with
  | nil => intro i _; rfl
  | cons c cs ih =>
    intro i h
    have hc : chunkContains c t = false := h c (List.mem_cons_self _ _)
    simp only [findContainingFrom, hc, Bool.false_eq_true, if_false]
    exact ih (i + 1) fun c' hc' => h c' (List.mem_cons_of_mem _ hc')

lemma nearestFold_untimed (t : ℚ) :
    ∀ (l : List (Nat × NChunk)) (acc : ℚ × Option Nat),
      (∀ p ∈ l, p.2.startSec = none) → l.foldl (nearestStep t) acc = acc := by
  intro l
  induction l with
  | nil => intro acc _; rfl
  | cons p l ih =>
    intro acc h
    have hp : p.2.startSec = none := h p (List.mem_cons_self _ _)
    have : nearestStep t acc p = acc := by simp [nearestStep, hp]
    simp only [List.foldl_cons, this]
    exact ih acc fun q hq => h q (List.mem_cons_of_mem _ hq)

lemma snd_mem_of_mem_enum {α : Type} {p : Nat × α} {l : List α} (hp : p ∈ l.enum) :
    p.2 ∈ l := by
  obtain ⟨i, a⟩ := p
  rw [List.enum_eq_enumFrom] at hp
  obtain ⟨-, hlt, heq⟩ := List.mem_enumFrom hp
  exact heq ▸ List.getElem_mem _

lemma mem_enum_startSec_none {raw : List RawChunk}
    (hstart : ∀ c ∈ raw, RawChunk.getStart c = none) :
    ∀ p ∈ (raw.map normalizeChunk).enum, (p.2 : NChunk).startSec = none := by
  intro p hp
  obtain ⟨rc, hrc, hmap⟩ := List.mem_map.mp (snd_mem_of_mem_enum hp)
  rw [← hmap]
  cases rc with
  | str s => rfl
  | obj s a b => simpa [normalizeChunk, RawChunk.getStart] using hstart _ hrc

lemma faissSearch_length (vectors : List (List ℚ)) (q : List ℚ) (k : Nat) :
    (faissSearch vectors q k).length = min k vectors.length := by
  unfold faissSearch
  rw [List.length_take, List.length_mergeSort, List.enum_length, List.length_map]

lemma faissSearch_sorted (vectors : List (List ℚ)) (q : List ℚ) (k : Nat) :
    List.Pairwise (fun a b : Nat × ℚ => b.2 ≤ a.2) (faissSearch vectors q k) := by
  unfold faissSearch
  refine List.Pairwise.sublist (List.take_sublist _ _) ?_
  have htrans : ∀ a b c : Nat × ℚ, decide (b.2 ≤ a.2) = true → decide (c.2 ≤ b.2) = true →
      decide (c.2 ≤ a.2) = true := by
    intro a b c h1 h2
    simp only [decide_eq_true_eq] at h1 h2 ⊢
    exact le_trans h2 h1
  have htot : ∀ a b : Nat × ℚ, (decide (b.2 ≤ a.2) || decide (a.2 ≤ b.2)) = true := by
    intro a b
    simp [le_total]
  have hs := List.sorted_mergeSort htrans htot ((vectors.map (dot q)).enum)
  exact hs.imp fun {a b} hab => by simpa using hab

lemma faissSearch_fst_lt (vectors : List (List ℚ)) (q : List ℚ) (k : Nat) :
    ∀ p ∈ faissSearch vectors q k, p.1 < vectors.length := by
  intro p hp
  unfold faissSearch at hp
  have hp2 := List.take_subset _ _ hp
  have hp3 : p ∈ (vectors.map (dot q)).enum := (List.mergeSort_perm _ _).subset hp2
  obtain ⟨i, a⟩ := p
  rw [List.enum_eq_enumFrom] at hp3
  obtain ⟨-, hlt, -⟩ := List.mem_enumFrom hp3
  simpa using hlt

lemma filterMap_guard_eq_map {α β : Type} (f : α → β) (g : α → Nat) (n : Nat) :
    ∀ (l : List α), (∀ p ∈ l, g p < n) →
      (l.filterMap fun p => if g p < n then some (f p) else none) = l.map f := by
  intro l
  induction l with
  | nil => intro _; rfl
  | cons a l ih =>
    intro h
    rw [List.filterMap_cons, if_pos (h a (List.mem_cons_self _ _)), List.map_cons,
      ih fun p hp => h p (List.mem_cons_of_mem _ hp)]

/-- Recursive form of the nearest-start fold, carrying the running index. -/
def nearestAux (t : ℚ) : Nat → ℚ → Option Nat → List NChunk → ℚ × Option Nat
  | _, d, b, [] => (d, b)
  | i, d, b, c :: cs =>
    match c.startSec with
    | none => nearestAux t (i + 1) d b cs
    | some s =>
      if pyAbs (s - t) < d then nearestAux t (i + 1) (pyAbs (s - t)) (some i) cs
      else nearestAux t (i + 1) d b cs

lemma enumFrom_foldl_nearest (t : ℚ) :
    ∀ (cs : List NChunk) (i : Nat) (acc : ℚ × Option Nat),
      (List.enumFrom i cs).foldl (nearestStep t) acc = nearestAux t i acc.1 acc.2 cs := by
  intro cs
  induction cs with
  | nil => intro i acc; rfl
  | cons c cs ih =>
    intro i acc
    rw [List.enumFrom_cons, List.foldl_cons]
    cases hs : c.startSec with
    | none =>
      simp only [nearestAux, nearestStep, hs]
      exact ih (i + 1) acc
    | some s =>
      simp only [nearestAux, nearestStep, hs]
      by_cases hlt : pyAbs (s - t) < acc.1
      · rw [if_pos hlt, if_pos hlt]
        exact ih (i + 1) (pyAbs (s - t), some i)
      · rw [if_neg hlt, if_neg hlt]
        exact ih (i + 1) acc

lemma nearestAux_spec (t : ℚ) :
    ∀ (cs : List NChunk) (i : Nat) (d : ℚ) (b : Option Nat),
      (nearestAux t i d b cs = (d, b)
        ∧ ∀ j c s, cs.get? j = some c → c.startSec = some s → d ≤ pyAbs (s - t))
      ∨ (∃ j c s, cs.get? j = some c ∧ c.startSec = some s
          ∧ nearestAux t i d b cs = (pyAbs (s - t), some (i + j))
          ∧ pyAbs (s - t) < d
          ∧ (∀ j' c' s', cs.get? j' = some c' → c'.startSec = some s' → pyAbs (s - t) ≤ pyAbs (s' - t))
          ∧ (∀ j' c' s', j' < j → cs.get? j' = some c' → c'.startSec = some s' →
              pyAbs (s - t) < pyAbs (s' - t))) := by
  intro cs
  induction cs with
  | nil =>
    intro i d b
    left
    exact ⟨rfl, by intro j c s h; simp at h⟩
  | cons c cs ih =>
    intro i d b
    cases hs : c.startSec with
    | none =>
      simp only [nearestAux, hs]
      rcases ih (i + 1) d b with ⟨heq, hall⟩ | ⟨j, c', s', hget, hs', heq, hlt, hmin, hstrict⟩
      · left
        refine ⟨heq, ?_⟩
        intro j c' s' hget hs'
        cases j with
        | zero =>
          rw [List.get?_cons_zero, Option.some.injEq] at hget
          rw [← hget] at hs'
          rw [hs] at hs'
          exact absurd hs' (by simp)
        | succ j => exact hall j c' s' (by simpa using hget) hs'
      · right
        refine ⟨j + 1, c', s', by simpa using hget, hs', ?_, hlt, ?_, ?_⟩
        · rw [heq]
          ring_nf
        · intro j' c'' s'' hget' hs''
          cases j' with
          | zero =>
            rw [List.get?_cons_zero, Option.some.injEq] at hget'
            rw [← hget'] at hs''
            rw [hs] at hs''
            exact absurd hs'' (by simp)
          | succ j' => exact hmin j' c'' s'' (by simpa using hget') hs''
        · intro j' c'' s'' hj' hget' hs''
          cases j' with
          | zero =>
            rw [List.get?_cons_zero, Option.some.injEq] at hget'
            rw [← hget'] at hs''
            rw [hs] at hs''
            exact absurd hs'' (by simp)
          | succ j' => exact hstrict j' c'' s'' (by omega) (by simpa using hget') hs''
    | some s =>
      simp only [nearestAux, hs]
      by_cases hlt0 : pyAbs (s - t) < d
      · rw [if_pos hlt0]
        rcases ih (i + 1) (pyAbs (s - t)) (some i) with ⟨heq, hall⟩ |
          ⟨j, c', s', hget, hs', heq, hlt, hmin, hstrict⟩
        · right
          refine ⟨0, c, s, rfl, hs, ?_, hlt0, ?_, ?_⟩
          · rw [heq]
            norm_num
          · intro j' c'' s'' hget' hs''
            cases j' with
            | zero =>
              rw [List.get?_cons_zero, Option.some.injEq] at hget'
              rw [← hget'] at hs''
              rw [hs, Option.some.injEq] at hs''
              rw [hs'']
            | succ j' => exact hall j' c'' s'' (by simpa using hget') hs''
          · intro j' c'' s'' hj' _ _
            omega
        · right
          refine ⟨j + 1, c', s', by simpa using hget, hs', ?_, lt_trans hlt hlt0, ?_, ?_⟩
          · rw [heq]
            ring_nf
          · intro j' c'' s'' hget' hs''
            cases j' with
            | zero =>
              rw [List.get?_cons_zero, Option.some.injEq] at hget'
              rw [← hget'] at hs''
              rw [hs, Option.some.injEq] at hs''
              rw [← hs'']
              exact le_of_lt hlt
            | succ j' => exact hmin j' c'' s'' (by simpa using hget') hs''
          · intro j' c'' s'' hj' hget' hs''
            cases j' with
            | zero =>
              rw [List.get?_cons_zero, Option.some.injEq] at hget'
              rw [← hget'] at hs''
              rw [hs, Option.some.injEq] at hs''
              rw [← hs'']
              exact hlt
            | succ j' => exact hstrict j' c'' s'' (by omega) (by simpa using hget') hs''
      · rw [if_neg hlt0]
        rcases ih (i + 1) d b with ⟨heq, hall⟩ | ⟨j, c', s', hget, hs', heq, hlt, hmin, hstrict⟩
        · left
          refine ⟨heq, ?_⟩
          intro j c'' s'' hget' hs''
          cases j with
          | zero =>
            rw [List.get?_cons_zero, Option.some.injEq] at hget'
            rw [← hget'] at hs''
            rw [hs, Option.some.injEq] at hs''
            rw [← hs'']
            exact le_of_not_lt hlt0
          | succ j => exact hall j c'' s'' (by simpa using hget') hs''
        · right
          refine ⟨j + 1, c', s', by simpa using hget, hs', ?_, hlt, ?_, ?_⟩
          · rw [heq]
            ring_nf
          · intro j' c'' s'' hget' hs''
            cases j' with
            | zero =>
              rw [List.get?_cons_zero, Option.some.injEq] at hget'
              rw [← hget'] at hs''
              rw [hs, Option.some.injEq] at hs''
              rw [← hs'']
              exact le_of_lt (lt_of_lt_of_le hlt (le_of_not_lt hlt0))
            | succ j' => exact hmin j' c'' s'' (by simpa using hget') hs''
          · intro j' c'' s'' hj' hget' hs''
            cases j' with
            | zero =>
              rw [List.get?_cons_zero, Option.some.injEq] at hget'
              rw [← hget'] at hs''
              rw [hs, Option.some.injEq] at hs''
              rw [← hs'']
              exact lt_of_lt_of_le hlt (le_of_not_lt hlt0)
            | succ j' => exact hstrict j' c'' s'' (by omega) (by simpa using hget') hs''

lemma nearestStart_spec (chunks : List NChunk) (t : ℚ) :
    (nearestStart chunks t = none
      ∧ ∀ j c s, chunks.get? j = some c → c.startSec = some s → (10 : ℚ) ^ 9 ≤ pyAbs (s - t))
    ∨ (∃ i c s, chunks.get? i = some c ∧ c.startSec = some s
        ∧ nearestStart chunks t = some i ∧ pyAbs (s - t) < 10 ^ 9
        ∧ (∀ j c' s', chunks.get? j = some c' → c'.startSec = some s' → pyAbs (s - t) ≤ pyAbs (s' - t))
        ∧ (∀ j c' s', j < i → chunks.get? j = some c' → c'.startSec = some s' →
            pyAbs (s - t) < pyAbs (s' - t))) := by
  have hfold : nearestStart chunks t = (nearestAux t 0 ((10 : ℚ) ^ 9) none chunks).2 := by
    unfold nearestStart
    rw [List.enum_eq_enumFrom, enumFrom_foldl_nearest]
  rcases nearestAux_spec t chunks 0 (10 ^ 9) none with ⟨heq, hall⟩ |
    ⟨j, c, s, hget, hs, heq, hlt, hmin, hstrict⟩
  · left
    rw [hfold, heq]
    exact ⟨rfl, hall⟩
  · right
    refine ⟨j, c, s, hget, hs, ?_, hlt, hmin, fun j' c' s' hj' => hstrict j' c' s' hj'⟩
    rw [hfold, heq]
    norm_num

lemma findContainingFrom_some (t : ℚ) :
    ∀ (cs : List NChunk) (i j : Nat), findContainingFrom t i cs = some j →
      ∃ k, j = i + k ∧ (∃ c, cs.get? k = some c ∧ chunkContains c t = true)
        ∧ ∀ m c, m < k → cs.get? m = some c → chunkContains c t = false := by
  intro cs
  induction cs with
  | nil => intro i j h; simp [findContainingFrom] at h
  | cons c cs ih =>
    intro i j h
    by_cases hc : chunkContains c t
    · rw [findContainingFrom, if_pos hc, Option.some.injEq] at h
      exact ⟨0, h.symm, ⟨c, rfl, hc⟩, by intro m c' hm; omega⟩
    · rw [findContainingFrom, if_neg hc] at h
      obtain ⟨k, hk, hex, hall⟩ := ih (i + 1) j h
      refine ⟨k + 1, by omega, by simpa using hex, ?_⟩
      intro m c' hm hget
      cases m with
      | zero =>
        rw [List.get?_cons_zero, Option.some.injEq] at hget
        rw [← hget]
        exact Bool.not_eq_true _ ▸ by simpa using hc
      | succ m => exact hall m c' (by omega) (by simpa using hget)

lemma findContainingFrom_none_all (t : ℚ) :
    ∀ (cs : List NChunk) (i : Nat), findContainingFrom t i cs = none →
      ∀ c ∈ cs, chunkContains c t = false := by
  intro cs
  induction cs with
  | nil => intro i _ c hc; simp at hc
  | cons c cs ih =>
    intro i h c' hc'
    by_cases hc : chunkContains c t
    · rw [findContainingFrom, if_pos hc] at h
      exact absurd h (by simp)
    · rw [findContainingFrom, if_neg hc] at h
      rcases List.mem_cons.mp hc' with rfl | hmem
      · exact Bool.not_eq_true _ ▸ by simpa using hc
      · exact ih (i + 1) h c' hmem

lemma windowSlice_map_index (chunks : List NChunk) (i w : Nat) :
    (windowSlice chunks i w).map RetrievalResult.chunk_index
      = List.range' (i - w) (min (chunks.length - 1) (i + w) + 1 - (i - w)) := by
  unfold windowSlice
  rw [List.map_map]
  exact List.map_id _

lemma windowSlice_scores (chunks : List NChunk) (i w : Nat) :
    ∀ r ∈ windowSlice chunks i w, r.score = none := by
  intro r hr
  obtain ⟨j, hj, rfl⟩ := List.mem_map.mp hr
  rfl

/-! ## Claims -/

/-- C10: `chunk_transcript` treats an explicitly passed `0` for
`target_tokens` or `overlap_tokens` exactly like `None`: both are replaced by
the configured defaults (`CHUNK_TOKEN_TARGET = 220`, `CHUNK_OVERLAP = 40`),
so a caller requesting zero overlap still gets the default overlap tail; only
a configured default of `0` would disable overlap (and the configured default
is positive). -/
theorem C10_zero_chunk_params_resolve_to_defaults :
    (∀ text : List Char, ∀ o : Option Nat,
        Chunker.chunk_transcript text (some 0) o = Chunker.chunk_transcript text none o)
    ∧ (∀ text : List Char, ∀ t : Option Nat,
        Chunker.chunk_transcript text t (some 0) = Chunker.chunk_transcript text t none)
    ∧ (∀ text : List Char, Chunker.chunk_transcript text (some 0) (some 0)
        = Chunker.chunk_transcript text none none)
    ∧ Chunker.resolveParam (some 0) Settings.CHUNK_TOKEN_TARGET = 220
    ∧ Chunker.resolveParam (some 0) Settings.CHUNK_OVERLAP = 40
    ∧ Chunker.resolveParam none Settings.CHUNK_OVERLAP = 40
    ∧ (∀ n : Nat, n ≠ 0 → Chunker.resolveParam (some n) Settings.CHUNK_OVERLAP = n)
    ∧ 0 < Settings.CHUNK_OVERLAP := by
  refine ⟨fun _ _ => rfl, fun text t => ?_, fun _ => rfl, rfl, rfl, rfl, fun n hn => ?_, by decide⟩
  · cases t with
    | none => rfl
    | some m => cases m <;> rfl
  · cases n with
    | zero => exact absurd rfl hn
    | succ m => rfl

/-- C10 witness: parameter resolution evaluated at concrete inputs via the
theorem. -/
theorem C10_witness :
    Chunker.chunk_transcript "Hello there. General Kenobi.".toList (some 0) (some 0)
      = Chunker.chunk_transcript "Hello there. General Kenobi.".toList none none
    ∧ Chunker.resolveParam (some 5) Settings.CHUNK_OVERLAP = 5 :=
  ⟨C10_zero_chunk_params_resolve_to_defaults.2.2.1 _,
   C10_zero_chunk_params_resolve_to_defaults.2.2.2.2.2.2.1 5 (by decide)⟩

/-- C8 as stated is false: with `max_history = 0` the trimming slice is the
Python negative-zero slice `l[-0:] = l`, so after one append the stored
history holds 1 message, exceeding `2 * max_history = 0`. -/
theorem C8_counterexample :
    (Conversation.add_message_list 0 [] ⟨"user", "hi", "t0", none⟩).length = 1
    ∧ ¬ (Conversation.add_message_list 0 [] ⟨"user", "hi", "t0", none⟩).length ≤ 2 * 0 := by
  exact ⟨rfl, by decide⟩

/-- C8 amended: for `max_history ≥ 1`, after every `add_message` the stored
message list is a suffix of the appended sequence — i.e. exactly the most
recent messages in append order, oldest discarded first — of length
`min (previous + 1) (2 * max_history)`, hence never more than
`2 * max_history`. (For `max_history = 0` the Python `l[-0:]` slice keeps the
entire list and no truncation happens.) -/
theorem C8_fifo_eviction (h : Nat) (msgs : List Conversation.PyMessage)
    (m : Conversation.PyMessage) (hh : 1 ≤ h) :
    (Conversation.add_message_list h msgs m).length = min (msgs.length + 1) (2 * h)
    ∧ (Conversation.add_message_list h msgs m).length ≤ 2 * h
    ∧ Conversation.add_message_list h msgs m <:+ msgs ++ [m]
    ∧ ∀ file, Conversation.add_message h file m
        = .valid (Conversation.add_message_list h (Conversation.loadedMessages file) m)
            (Conversation.loadedTranscript file) := by
  have hne : h * 2 ≠ 0 := by omega
  have hlen : (msgs ++ [m]).length = msgs.length + 1 := by simp
  have key : (Conversation.add_message_list h msgs m).length = min (msgs.length + 1) (2 * h)
      ∧ Conversation.add_message_list h msgs m <:+ msgs ++ [m] := by
    unfold Conversation.add_message_list Conversation.pyTailSlice
    by_cases hgt : (msgs ++ [m]).length > h * 2
    · simp only [hgt, if_true, hne, if_false]
      refine ⟨?_, List.drop_suffix _ _⟩
      simp only [List.length_drop, hlen]
      omega
    · simp only [hgt, if_false]
      refine ⟨?_, List.suffix_refl _⟩
      rw [hlen]
      omega
  exact ⟨key.1, le_of_eq_of_le key.1 (Nat.min_le_right _ _), key.2, fun _ => rfl⟩

/-- C8 witness: with `max_history = 1` appending a third message retains
exactly the two most recent. -/
theorem C8_witness :
    (Conversation.add_message_list 1
        [⟨"user", "a", "t1", none⟩, ⟨"assistant", "b", "t2", none⟩]
        ⟨"user", "c", "t3", none⟩).length = min (2 + 1) (2 * 1)
    ∧ Conversation.add_message_list 1
        [⟨"user", "a", "t1", none⟩, ⟨"assistant", "b", "t2", none⟩]
        ⟨"user", "c", "t3", none⟩
      <:+ [⟨"user", "a", "t1", none⟩, ⟨"assistant", "b", "t2", none⟩] ++ [⟨"user", "c", "t3", none⟩] := by
  have h := C8_fifo_eviction 1
    [⟨"user", "a", "t1", none⟩, ⟨"assistant", "b", "t2", none⟩]
    ⟨"user", "c", "t3", none⟩ (by decide)
  exact ⟨h.1, h.2.2.1⟩

/-- C7: building an index over empty content fails hard: chunking an empty or
whitespace-only transcript yields zero chunks, `build_index` then raises
`ValueError("No transcript content to index")`, and on any erroring build the
two on-disk artifacts are left exactly as they were. -/
theorem C7_empty_build_fails (embed : List String → List (List ℚ)) (st : FsState)
    (text : List Char) (hws : ∀ c ∈ text, c.isWhitespace = true) :
    chunk_text text = []
    ∧ build_index embed st (some text) none
        = (.error (.valueError "No transcript content to index"), st)
    ∧ ∀ (embed' : List String → List (List ℚ)) (st' : FsState)
        (txt : Option (List Char)) (segs : Option (List Segment)) (e : RagErr),
        (build_index embed' st' txt segs).1 = .error e →
          (build_index embed' st' txt segs).2 = st' := by
  have hchunks : chunk_text text = [] := by
    simp [chunk_text, chunkTextWindows_ws text hws]
  refine ⟨hchunks, ?_, ?_⟩
  · simp [build_index, hchunks]
  · intro embed' st' txt segs e herr
    simp only [build_index] at herr ⊢
    split at herr
    · rename_i hcond
      rw [if_pos hcond]
    · simp at herr

/-- C7 witness: the whitespace-only transcript `"  \t "` produces no chunks
and the build errors without touching an existing index pair. -/
theorem C7_witness :
    chunk_text "  \t ".toList = []
    ∧ build_index (fun ts => ts.map fun _ => [1])
        ⟨some [[1]], some (.valid [.str "old"])⟩ (some "  \t ".toList) none
      = (.error (.valueError "No transcript content to index"),
         ⟨some [[1]], some (.valid [.str "old"])⟩) := by
  have h := C7_empty_build_fails (fun ts => ts.map fun _ => [1])
    ⟨some [[1]], some (.valid [.str "old"])⟩ "  \t ".toList (by decide)
  exact ⟨h.1, h.2.1⟩

/-- C9: on an index whose metadata chunks all lack timing (`start` is null
for every chunk), `retrieve_by_timestamp` returns the empty list for every
`time_sec` and `window`: the containment scan never fires and the
nearest-start fallback skips every untimed chunk. -/
theorem C9_untimed_timestamp_lookup_empty (vecs : List (List ℚ)) (raw : List RawChunk)
    (t : ℚ) (w : Nat) (hstart : ∀ c ∈ raw, RawChunk.getStart c = none) :
    retrieve_by_timestamp ⟨some vecs, some (.valid raw)⟩ t w = .ok [] := by
  by_cases hr : raw.isEmpty
  · simp [retrieve_by_timestamp, hr]
  · have hsnone : ∀ c ∈ raw.map normalizeChunk, NChunk.startSec c = none := by
      intro c hc
      obtain ⟨rc, hrc, rfl⟩ := List.mem_map.mp hc
      cases rc with
      | str s => rfl
      | obj s a b => simpa [normalizeChunk, RawChunk.getStart] using hstart _ hrc
    have hcont : ∀ c ∈ raw.map normalizeChunk, chunkContains c t = false := by
      intro c hc
      simp [chunkContains, hsnone c hc]
    have hfind : findContaining (raw.map normalizeChunk) t = none :=
      findContainingFrom_all_false t _ 0 hcont
    have hnear : nearestStart (raw.map normalizeChunk) t = none := by
      unfold nearestStart
      rw [nearestFold_untimed t _ _ (mem_enum_startSec_none hstart)]
    simp [retrieve_by_timestamp, hr, hfind, hnear]

/-- C9 witness: two untimed chunks (one legacy string, one dict with null
start) yield an empty timestamp lookup. -/
theorem C9_witness :
    retrieve_by_timestamp
      ⟨some [[1], [1]], some (.valid [.str "a", .obj "b" none (some 5)])⟩ 3 1 = .ok [] :=
  C9_untimed_timestamp_lookup_empty [[1], [1]] [.str "a", .obj "b" none (some 5)] 3 1
    (by intro c hc; fin_cases hc <;> rfl)

/-- C1 as stated is false: on a metadata file that is not valid JSON,
`retrieve` and `retrieve_by_timestamp` propagate the JSON parse error instead
of returning an empty result (only `get_index_stats` guards the parse). -/
theorem C1_counterexample :
    retrieve (fun _ => [1]) ⟨some [[1]], some .corrupt⟩ "q" 5 = .error .jsonDecodeError
    ∧ retrieve_by_timestamp ⟨some [[1]], some .corrupt⟩ 0 0 = .error .jsonDecodeError
    ∧ get_index_stats ⟨some [[1]], some .corrupt⟩ = 0 :=
  ⟨rfl, rfl, rfl⟩

/-- C1 amended: when the index file or the metadata file is missing, all
three read operations return an empty result (zero `chunk_count`) without
raising; when both files exist but the metadata file is corrupted (not valid
JSON), `get_index_stats` still returns 0 without raising, but `retrieve` and
`retrieve_by_timestamp` raise the JSON parse error to the caller. -/
theorem C1_missing_and_corrupt_index_reads (embedQ : String → List ℚ) (st : FsState)
    (q : String) (k : Nat) (t : ℚ) (w : Nat) :
    ((st.indexFile = none ∨ st.metaFile = none) →
      retrieve embedQ st q k = .ok []
      ∧ retrieve_by_timestamp st t w = .ok []
      ∧ get_index_stats st = 0)
    ∧ (∀ vecs, st = ⟨some vecs, some .corrupt⟩ →
      retrieve embedQ st q k = .error .jsonDecodeError
      ∧ retrieve_by_timestamp st t w = .error .jsonDecodeError
      ∧ get_index_stats st = 0) := by
  obtain ⟨idx, meta⟩ := st
  constructor
  · rintro (h | h) <;> simp only at h <;> subst h
    · exact ⟨rfl, rfl, rfl⟩
    · cases idx <;> exact ⟨rfl, rfl, rfl⟩
  · rintro vecs heq
    cases heq
    exact ⟨rfl, rfl, rfl⟩

/-- C1 witness: read operations on a wholly missing index pair, and on a
corrupted metadata file, evaluated concretely through the theorem. -/
theorem C1_witness :
    (retrieve (fun _ => [1]) ⟨none, none⟩ "q" 5 = .ok []
      ∧ retrieve_by_timestamp ⟨none, none⟩ 8 2 = .ok []
      ∧ get_index_stats ⟨none, none⟩ = 0)
    ∧ (retrieve (fun _ => [1]) ⟨some [[1]], some .corrupt⟩ "q" 5 = .error .jsonDecodeError
      ∧ retrieve_by_timestamp ⟨some [[1]], some .corrupt⟩ 8 2 = .error .jsonDecodeError
      ∧ get_index_stats ⟨some [[1]], some .corrupt⟩ = 0) :=
  ⟨(C1_missing_and_corrupt_index_reads (fun _ => [1]) ⟨none, none⟩ "q" 5 8 2).1 (Or.inl rfl),
   (C1_missing_and_corrupt_index_reads (fun _ => [1]) ⟨some [[1]], some .corrupt⟩ "q" 5 8 2).2
     [[1]] rfl⟩

/-- C3 as stated is false in one point: after exhausting the 6 rate-limited
attempts, `GeminiBackend.generate` raises a plain
`RuntimeError("Exceeded retry attempts for Gemini")`, not a distinct
`RateLimitExceededError` class (no such class exists in the code). -/
theorem C3_counterexample :
    (LlmBackend.gemini_generate (fun _ => .error "429") fun _ => 0).result
      = .error (.runtimeError "Exceeded retry attempts for Gemini")
    ∧ (match (LlmBackend.gemini_generate (fun _ => .error "429") fun _ => 0).result with
       | .error ex => LlmBackend.isRateLimitExceededExn ex
       | .ok _ => true) = false := by
  exact ⟨by decide, by decide⟩

/-- C3 amended: a Gemini `generate` call that receives a rate-limit signal on
every attempt sleeps `2.0 * 2^attempt + jitter` after each of exactly 6
attempts (exponentially growing backoff plus jitter, including one sleep
after the final attempt) and then raises
`RuntimeError("Exceeded retry attempts for Gemini")` — a dedicated message
but a generic `RuntimeError`, not a distinct `RateLimitExceededError` class;
any provider error that is not a rate-limit signal propagates immediately on
the first attempt with no sleeps. -/
theorem C3_rate_limit_retry (invoke : Nat → Except String String) (jitter : Nat → ℚ) :
    ((∀ i, i < 6 → ∃ e, invoke i = .error e ∧ LlmBackend.isRateLimitSignal e = true) →
      LlmBackend.gemini_generate invoke jitter =
        ⟨.error (.runtimeError "Exceeded retry attempts for Gemini"),
         [2 * 2 ^ 0 + jitter 0, 2 * 2 ^ 1 + jitter 1, 2 * 2 ^ 2 + jitter 2,
          2 * 2 ^ 3 + jitter 3, 2 * 2 ^ 4 + jitter 4, 2 * 2 ^ 5 + jitter 5], 6⟩)
    ∧ (∀ e, invoke 0 = .error e → LlmBackend.isRateLimitSignal e = false →
        LlmBackend.gemini_generate invoke jitter = ⟨.error (.providerError e), [], 1⟩)
    ∧ (∀ r, invoke 0 = .ok r →
        LlmBackend.gemini_generate invoke jitter = ⟨.ok r, [], 1⟩) := by
  refine ⟨fun h => ?_, fun e h0 hn => ?_, fun r h0 => ?_⟩
  · obtain ⟨e0, i0, r0⟩ := h 0 (by omega)
    obtain ⟨e1, i1, r1⟩ := h 1 (by omega)
    obtain ⟨e2, i2, r2⟩ := h 2 (by omega)
    obtain ⟨e3, i3, r3⟩ := h 3 (by omega)
    obtain ⟨e4, i4, r4⟩ := h 4 (by omega)
    obtain ⟨e5, i5, r5⟩ := h 5 (by omega)
    simp [LlmBackend.gemini_generate, LlmBackend.geminiRetryLoop,
      i0, r0, i1, r1, i2, r2, i3, r3, i4, r4, i5, r5]
  · simp [LlmBackend.gemini_generate, LlmBackend.geminiRetryLoop, h0, hn]
  · simp [LlmBackend.gemini_generate, LlmBackend.geminiRetryLoop, h0]

/-- C3 witness: every attempt answers `429` with zero jitter — six attempts,
backoff 2, 4, 8, 16, 32, 64 seconds, then the final `RuntimeError`; and a
non-rate-limit error propagates immediately. -/
theorem C3_witness :
    LlmBackend.gemini_generate (fun _ => .error "429") (fun _ => 0) =
      ⟨.error (.runtimeError "Exceeded retry attempts for Gemini"),
       [2, 4, 8, 16, 32, 64], 6⟩
    ∧ LlmBackend.gemini_generate (fun _ => .error "invalid api key") (fun _ => 0) =
      ⟨.error (.providerError "invalid api key"), [], 1⟩ := by
  constructor
  · have h := (C3_rate_limit_retry (fun _ => .error "429") fun _ => 0).1
      fun i _ => ⟨"429", rfl, by decide⟩
    rw [h]
    norm_num
  · exact (C3_rate_limit_retry (fun _ => .error "invalid api key") fun _ => 0).2.1
      "invalid api key" rfl (by decide)

/-- C4: semantic search over an indexed document with `n` chunks and
`top_k ≥ 1` returns exactly `min top_k n` results (so a `top_k` larger than
`n` returns all `n` chunks rather than failing), every result carries a
score, results are ordered by descending score, and a search on a
document_id with no index file returns the empty list. -/
theorem C4_semantic_search_clamped (embedQ : String → List ℚ) (q : String) (top_k : Nat)
    (vecs : List (List ℚ)) (raw : List RawChunk)
    (hlen : vecs.length = raw.length) (hne : raw ≠ []) (hk : 1 ≤ top_k) :
    (∃ rs, retrieve embedQ ⟨some vecs, some (.valid raw)⟩ q top_k = .ok rs
      ∧ rs.length = min top_k raw.length
      ∧ (raw.length ≤ top_k → rs.length = raw.length)
      ∧ List.Pairwise (fun r₁ r₂ : RetrievalResult =>
          ∀ s₁ s₂, r₁.score = some s₁ → r₂.score = some s₂ → s₂ ≤ s₁) rs
      ∧ (∀ r ∈ rs, ∃ s, r.score = some s))
    ∧ ∀ st : FsState, st.indexFile = none → retrieve embedQ st q top_k = .ok [] := by
  constructor
  · have hempty : (raw.map RawChunk.getText).isEmpty = false := by
      simp [List.isEmpty_iff, hne]
    simp only [retrieve, hempty, Bool.false_eq_true, if_false]
    set hits := faissSearch vecs (embedQ q) (min top_k (raw.map RawChunk.getText).length)
      with hhits
    have hfst : ∀ p ∈ hits, p.1 < (raw.map RawChunk.getText).length := by
      intro p hp
      have hv := faissSearch_fst_lt _ _ _ p hp
      rw [List.length_map, ← hlen]
      exact hv
    rw [filterMap_guard_eq_map (fun p : Nat × ℚ =>
      ({ text := (raw.map RawChunk.getText).getD p.1 "", score := some p.2, chunk_index := p.1,
         start_sec := rawStartAt raw p.1, end_sec := rawEndAt raw p.1 } : RetrievalResult))
      Prod.fst _ hits hfst]
    have hL : (hits.map fun p : Nat × ℚ =>
        ({ text := (raw.map RawChunk.getText).getD p.1 "", score := some p.2, chunk_index := p.1,
           start_sec := rawStartAt raw p.1, end_sec := rawEndAt raw p.1 } : RetrievalResult)).length
        = min top_k raw.length := by
      rw [List.length_map, hhits, faissSearch_length, List.length_map]
      omega
    refine ⟨_, rfl, hL, fun h => by rw [hL]; omega, ?_, ?_⟩
    · rw [List.pairwise_map]
      have hs : List.Pairwise (fun a b : Nat × ℚ => b.2 ≤ a.2) hits := by
        rw [hhits]
        exact faissSearch_sorted _ _ _
      refine hs.imp fun {a b} hab => ?_
      intro s₁ s₂ h₁ h₂
      rw [Option.some.injEq] at h₁ h₂
      rw [← h₁, ← h₂]
      exact hab
    · intro r hr
      obtain ⟨p, hp, rfl⟩ := List.mem_map.mp hr
      exact ⟨p.2, rfl⟩
  · intro st hst
    obtain ⟨idx, meta⟩ := st
    simp only at hst
    subst hst
    rfl

/-- C4 witness: three stored one-dimensional vectors with query scores
3, 1, 2; `top_k = 2` returns the two best in descending order, and the
properties of the theorem hold concretely. -/
theorem C4_witness :
    ((∃ rs, retrieve (fun _ => [1])
        ⟨some [[3], [1], [2]], some (.valid [.str "a", .str "b", .str "c"])⟩ "q" 2 = .ok rs
      ∧ rs.length = min 2 ([RawChunk.str "a", .str "b", .str "c"] : List RawChunk).length
      ∧ (([RawChunk.str "a", .str "b", .str "c"] : List RawChunk).length ≤ 2 →
          rs.length = ([RawChunk.str "a", .str "b", .str "c"] : List RawChunk).length)
      ∧ List.Pairwise (fun r₁ r₂ : RetrievalResult =>
          ∀ s₁ s₂, r₁.score = some s₁ → r₂.score = some s₂ → s₂ ≤ s₁) rs
      ∧ (∀ r ∈ rs, ∃ s, r.score = some s))
    ∧ ∀ st : FsState, st.indexFile = none → retrieve (fun _ => [1]) st "q" 2 = .ok [])
    ∧ retrieve (fun _ => [1])
        ⟨some [[3], [1], [2]], some (.valid [.str "a", .str "b", .str "c"])⟩ "q" 2
      = .ok [⟨"a", some 3, 0, none, none⟩, ⟨"c", some 2, 2, none, none⟩] :=
  ⟨C4_semantic_search_clamped (fun _ => [1]) "q" 2 [[3], [1], [2]]
      [.str "a", .str "b", .str "c"] rfl (by decide) (by decide),
   by norm_num [retrieve, faissSearch, List.mergeSort, dot, rawStartAt, rawEndAt, List.enum,
     List.enumFrom, RawChunk.getText, List.filterMap_cons, RawChunk.isObj]⟩

/-- C2 as stated is false at a distant chunk: with a single chunk timed
`[2e9, 2e9 + 10]` and `time_sec = 0`, no interval contains the time and the
fallback's `best_delta = 1e9` sentinel is below the actual distance `2e9`,
so the code returns `[]` where the claim demands the closest-start chunk. -/
theorem C2_counterexample :
    retrieve_by_timestamp
        ⟨some [[1]], some (.valid [.obj "a" (some (2 * 10 ^ 9)) (some (2 * 10 ^ 9 + 10))])⟩ 0 0
      = .ok []
    ∧ (Except.ok ([] : List RetrievalResult) : Except RagErr (List RetrievalResult))
        ≠ .ok [⟨"a", none, 0, some (2 * 10 ^ 9), some (2 * 10 ^ 9 + 10)⟩] := by
  constructor
  · norm_num [retrieve_by_timestamp, findContaining, findContainingFrom, chunkContains,
      nearestStart, nearestStep, pyAbs, List.enum, List.enumFrom, normalizeChunk]
  · simp

/-- C2 amended: on an indexed document with nonempty metadata,
`retrieve_by_timestamp` returns the window expansion around the lowest-index
chunk whose `[start, end]` interval contains `time_sec` when one exists;
otherwise around the chunk whose `start_sec` is closest in `abs` difference
to `time_sec` (ties broken by lower chunk index) **provided that difference
is below the `1e9` sentinel used as initial `best_delta`** — if every timed
chunk's start is at least `1e9` seconds away the fallback finds nothing and
the result is empty. The expansion spans `window` adjacent chunks on each
side, clamped to the index bounds, in ascending chunk-index order with
`score = null`. -/
theorem C2_timestamp_lookup (vecs : List (List ℚ)) (raw : List RawChunk) (t : ℚ) (w : Nat)
    (hne : raw ≠ []) :
    (∀ i, findContaining (raw.map normalizeChunk) t = some i →
      retrieve_by_timestamp ⟨some vecs, some (.valid raw)⟩ t w
          = .ok (windowSlice (raw.map normalizeChunk) i w)
      ∧ (∃ c, (raw.map normalizeChunk).get? i = some c ∧ chunkContains c t = true)
      ∧ (∀ j c, j < i → (raw.map normalizeChunk).get? j = some c →
          chunkContains c t = false))
    ∧ ((∃ c ∈ raw.map normalizeChunk, chunkContains c t = true) →
        ∃ i, findContaining (raw.map normalizeChunk) t = some i)
    ∧ (findContaining (raw.map normalizeChunk) t = none →
        ∀ i, nearestStart (raw.map normalizeChunk) t = some i →
          retrieve_by_timestamp ⟨some vecs, some (.valid raw)⟩ t w
              = .ok (windowSlice (raw.map normalizeChunk) i w)
          ∧ ∃ c s, (raw.map normalizeChunk).get? i = some c ∧ c.startSec = some s
              ∧ pyAbs (s - t) < 10 ^ 9
              ∧ (∀ j c' s', (raw.map normalizeChunk).get? j = some c' →
                  c'.startSec = some s' → pyAbs (s - t) ≤ pyAbs (s' - t))
              ∧ (∀ j c' s', j < i → (raw.map normalizeChunk).get? j = some c' →
                  c'.startSec = some s' → pyAbs (s - t) < pyAbs (s' - t)))
    ∧ ((∃ j c s, (raw.map normalizeChunk).get? j = some c ∧ c.startSec = some s
          ∧ pyAbs (s - t) < 10 ^ 9) →
        nearestStart (raw.map normalizeChunk) t ≠ none)
    ∧ (findContaining (raw.map normalizeChunk) t = none →
        nearestStart (raw.map normalizeChunk) t = none →
        retrieve_by_timestamp ⟨some vecs, some (.valid raw)⟩ t w = .ok [])
    ∧ (∀ i, ((windowSlice (raw.map normalizeChunk) i w).map RetrievalResult.chunk_index
          = List.range' (i - w)
              (min ((raw.map normalizeChunk).length - 1) (i + w) + 1 - (i - w)))
        ∧ ∀ r ∈ windowSlice (raw.map normalizeChunk) i w, r.score = none) := by
  have hempty : raw.isEmpty = false := by simp [List.isEmpty_iff, hne]
  refine ⟨fun i hfind => ?_, fun hex => ?_, fun hnone i hnear => ?_, fun hex => ?_,
    fun hnone hnear => ?_, fun i => ⟨windowSlice_map_index _ _ _, windowSlice_scores _ _ _⟩⟩
  · refine ⟨?_, ?_⟩
    · simp only [retrieve_by_timestamp, hempty, Bool.false_eq_true, if_false, hfind]
    · obtain ⟨k, hk, hex, hall⟩ := findContainingFrom_some t _ 0 i hfind
      have hk' : i = k := by omega
      subst hk'
      exact ⟨hex, hall⟩
  · rcases hfc : findContaining (raw.map normalizeChunk) t with _ | i
    · obtain ⟨c, hc, hcont⟩ := hex
      have := findContainingFrom_none_all t _ 0 hfc c hc
      rw [this] at hcont
      exact absurd hcont (by simp)
    · exact ⟨i, rfl⟩
  · refine ⟨?_, ?_⟩
    · simp only [retrieve_by_timestamp, hempty, Bool.false_eq_true, if_false, hnone, hnear]
    · rcases nearestStart_spec (raw.map normalizeChunk) t with ⟨hn, -⟩ |
        ⟨i', c, s, hget, hs, hn, hlt, hmin, hstrict⟩
      · rw [hn] at hnear
        exact absurd hnear (by simp)
      · rw [hn, Option.some.injEq] at hnear
        subst hnear
        exact ⟨c, s, hget, hs, hlt, hmin, hstrict⟩
  · intro hn
    rcases nearestStart_spec (raw.map normalizeChunk) t with ⟨hn', hall⟩ |
      ⟨i', c, s, hget, hs, hn', hlt, hmin, hstrict⟩
    · obtain ⟨j, c, s, hget, hs, hlt⟩ := hex
      exact absurd (hall j c s hget hs) (by linarith)
    · rw [hn'] at hn
      exact absurd hn (by simp)
  · simp only [retrieve_by_timestamp, hempty, Bool.false_eq_true, if_false, hnone, hnear]

/-- C2 witness: the spec's worked example — chunks timed `[0,10]`, `[10,20]`,
`[20,30]`: `time_sec = 15, window = 0` returns the `[10,20]` chunk,
`window = 1` returns all three in order, and `time_sec = -5` falls back to
the smallest-start chunk — each derived through the theorem. -/
theorem C2_witness :
    retrieve_by_timestamp
        ⟨some [[1], [1], [1]], some (.valid [.obj "a" (some 0) (some 10),
          .obj "b" (some 10) (some 20), .obj "c" (some 20) (some 30)])⟩ 15 0
      = .ok [⟨"b", none, 1, some 10, some 20⟩]
    ∧ retrieve_by_timestamp
        ⟨some [[1], [1], [1]], some (.valid [.obj "a" (some 0) (some 10),
          .obj "b" (some 10) (some 20), .obj "c" (some 20) (some 30)])⟩ 15 1
      = .ok [⟨"a", none, 0, some 0, some 10⟩, ⟨"b", none, 1, some 10, some 20⟩,
          ⟨"c", none, 2, some 20, some 30⟩]
    ∧ retrieve_by_timestamp
        ⟨some [[1], [1], [1]], some (.valid [.obj "a" (some 0) (some 10),
          .obj "b" (some 10) (some 20), .obj "c" (some 20) (some 30)])⟩ (-5) 0
      = .ok [⟨"a", none, 0, some 0, some 10⟩] := by
  have e1 := ((C2_timestamp_lookup [[1], [1], [1]] [RawChunk.obj "a" (some 0) (some 10), RawChunk.obj "b" (some 10) (some 20), RawChunk.obj "c" (some 20) (some 30)] 15 0 (by decide)).1 1 (by
    norm_num [findContaining, findContainingFrom, chunkContains, normalizeChunk])).1
  have e2 := ((C2_timestamp_lookup [[1], [1], [1]] [RawChunk.obj "a" (some 0) (some 10), RawChunk.obj "b" (some 10) (some 20), RawChunk.obj "c" (some 20) (some 30)] 15 1 (by decide)).1 1 (by
    norm_num [findContaining, findContainingFrom, chunkContains, normalizeChunk])).1
  have e3 := ((C2_timestamp_lookup [[1], [1], [1]] [RawChunk.obj "a" (some 0) (some 10), RawChunk.obj "b" (some 10) (some 20), RawChunk.obj "c" (some 20) (some 30)] (-5) 0 (by decide)).2.2.1 (by
    norm_num [findContaining, findContainingFrom, chunkContains, normalizeChunk]) 0 (by
    norm_num [nearestStart, nearestStep, pyAbs, List.enum, List.enumFrom, normalizeChunk])).1
  refine ⟨e1.trans ?_, e2.trans ?_, e3.trans ?_⟩ <;>
    norm_num [windowSlice, mkTsResult, normalizeChunk, List.range']

/-- C5 as stated is false in one point: a caller-provided `top_k = 0` is
"set", but `payload.top_k or 6` discards it and semantic mode runs with 6. -/
theorem C5_counterexample :
    Chat.routeQuery "what is this video about" none (some 0) = .semantic 6
    ∧ Chat.RouteDecision.semantic 6 ≠ Chat.RouteDecision.semantic 0 :=
  ⟨rfl, by decide⟩

/-- C5 amended: `_parse_timestamp_seconds` tries the four patterns in the
fixed priority order clock / compound-units / natural-minutes / bare-seconds,
returning the value of the first that yields one; if none do, `chat_once`
selects semantic mode. On timestamp mode the effective window is the
caller-provided value when it is ≥ 0 and 1 otherwise; on semantic mode
`top_k` is the caller-provided value when set and nonzero, and 6 otherwise
(Python's `payload.top_k or 6` treats an explicit 0 like unset). -/
theorem C5_parse_priority_and_routing (message : String) (window : Option Int) (top_k : Option Nat) :
    (∀ v, Chat.matchClock (Chat.pyLower message) = some v →
        Chat.parse_timestamp_seconds message = some v)
    ∧ (Chat.matchClock (Chat.pyLower message) = none →
        ∀ v, Chat.matchCompound (Chat.pyLower message) = some v →
          Chat.parse_timestamp_seconds message = some v)
    ∧ (Chat.matchClock (Chat.pyLower message) = none →
        Chat.matchCompound (Chat.pyLower message) = none →
        ∀ v, Chat.matchNaturalMinutes (Chat.pyLower message) = some v →
          Chat.parse_timestamp_seconds message = some v)
    ∧ (Chat.matchClock (Chat.pyLower message) = none →
        Chat.matchCompound (Chat.pyLower message) = none →
        Chat.matchNaturalMinutes (Chat.pyLower message) = none →
        Chat.parse_timestamp_seconds message = Chat.matchBareSeconds (Chat.pyLower message))
    ∧ (∀ ts, Chat.parse_timestamp_seconds message = some ts →
        Chat.routeQuery message window top_k = .timestamp ts (Chat.effectiveWindow window))
    ∧ (Chat.parse_timestamp_seconds message = none →
        Chat.routeQuery message window top_k = .semantic (Chat.effectiveTopK top_k))
    ∧ (∀ w, window = some w → (0 ≤ w → Chat.effectiveWindow window = w)
        ∧ (w < 0 → Chat.effectiveWindow window = 1))
    ∧ (window = none → Chat.effectiveWindow window = 1)
    ∧ (∀ k, top_k = some k → k ≠ 0 → Chat.effectiveTopK top_k = k)
    ∧ ((top_k = some 0 ∨ top_k = none) → Chat.effectiveTopK top_k = 6) := by
  refine ⟨fun v hv => ?_, fun h1 v hv => ?_, fun h1 h2 v hv => ?_, fun h1 h2 h3 => ?_,
    fun ts hts => ?_, fun hn => ?_, fun w hw => ⟨fun hge => ?_, fun hlt => ?_⟩,
    fun hn => ?_, fun k hk hk0 => ?_, fun hor => ?_⟩
  · have hv' := hv
    simp [Chat.parse_timestamp_seconds, hv']
  · have h1' := h1
    have hv' := hv
    simp [Chat.parse_timestamp_seconds, h1', hv']
  · have h1' := h1
    have h2' := h2
    have hv' := hv
    simp [Chat.parse_timestamp_seconds, h1', h2', hv']
  · have h1' := h1
    have h2' := h2
    have h3' := h3
    simp [Chat.parse_timestamp_seconds, h1', h2', h3']
  · simp [Chat.routeQuery, hts]
  · simp [Chat.routeQuery, hn]
  · subst hw; simp [Chat.effectiveWindow, hge]
  · subst hw; simp [Chat.effectiveWindow]; omega
  · subst hn; rfl
  · subst hk; cases k with
    | zero => exact absurd rfl hk0
    | succ m => rfl
  · rcases hor with h | h <;> subst h <;> rfl

/-- C5 witness: each pattern tier exercised on a concrete message through
the theorem, plus concrete window/top-k resolutions. -/
theorem C5_witness :
    Chat.parse_timestamp_seconds "jump to 4:32 please" = some 272
    ∧ Chat.parse_timestamp_seconds "at 4m32s" = some 272
    ∧ Chat.parse_timestamp_seconds "after 4 minutes 32 seconds" = some 272
    ∧ Chat.parse_timestamp_seconds "wait 0s or 5 minutes" = some 300
    ∧ Chat.parse_timestamp_seconds "45 seconds in" = some 45
    ∧ Chat.parse_timestamp_seconds "wait 0 seconds" = some 0
    ∧ Chat.routeQuery "jump to 4:32 please" (some (-3)) none = .timestamp 272 1
    ∧ Chat.routeQuery "what is this video about" none none = .semantic 6
    ∧ Chat.routeQuery "what is this video about" none (some 9) = .semantic 9 := by
  refine ⟨(C5_parse_priority_and_routing "jump to 4:32 please" none none).1 272 (by decide),
    (C5_parse_priority_and_routing "at 4m32s" none none).2.1 (by decide) 272 (by decide),
    (C5_parse_priority_and_routing "after 4 minutes 32 seconds" none none).2.1 (by decide) 272 (by decide),
    (C5_parse_priority_and_routing "wait 0s or 5 minutes" none none).2.2.1 (by decide) (by decide) 300 (by decide),
    (C5_parse_priority_and_routing "45 seconds in" none none).2.1 (by decide) 45 (by decide),
    ((C5_parse_priority_and_routing "wait 0 seconds" none none).2.2.2.1 (by decide) (by decide) (by decide)).trans
      (by decide),
    ?_, ?_, ?_⟩
  · have := (C5_parse_priority_and_routing "jump to 4:32 please" (some (-3)) none).2.2.2.2.1 272
      ((C5_parse_priority_and_routing "jump to 4:32 please" (some (-3)) none).1 272 (by decide))
    simpa [Chat.effectiveWindow] using this
  · exact (C5_parse_priority_and_routing "what is this video about" none none).2.2.2.2.2.1 (by decide)
  · exact (C5_parse_priority_and_routing "what is this video about" none (some 9)).2.2.2.2.2.1 (by decide)

/-- C6: re-running `index_transcript` with the same `video_id` and an
identical transcript, without the force flag, is a no-op: the metadata stored
by the first (indexing) run contains the transcript's content hash, so the
second call returns the "already indexed" skipped status and leaves the
persisted vectors and metadata exactly as the first call left them — hence
any search over the store yields identical results before and after. -/
theorem C6_reindex_idempotent (embed : List (List Char) → List (List ℚ))
    (hashFn : List Char → String) (dim : Nat) (st₀ st₁ : Indexer.StoreState)
    (vid : String) (text : List Char) (n : Nat) (h : String)
    (hchunks : Chunker.chunk_transcript text
        (some Settings.CHUNK_TOKEN_TARGET) (some Settings.CHUNK_OVERLAP) ≠ [])
    (hfirst : Indexer.index_transcript embed hashFn dim st₀ vid text false
        = .ok (.indexed n h, st₁)) :
    Indexer.index_transcript embed hashFn dim st₁ vid text false
      = .ok (.skippedAlready h, st₁) := by
  simp only [Indexer.index_transcript, Settings.USE_RAG] at hfirst ⊢
  rw [if_neg (by simp)] at hfirst
  rw [if_neg (by simp)]
  by_cases hany0 : (¬false = true ∧ (st₀.metadata.any fun md =>
      decide (md.video_id = vid ∧ md.transcript_hash = hashFn text)) = true)
  · rw [if_pos hany0] at hfirst
    exact absurd hfirst (by simp)
  · rw [if_neg hany0] at hfirst
    split at hfirst
    · exact absurd hfirst (by simp)
    · rename_i store' heq
      rw [Except.ok.injEq, Prod.mk.injEq, Indexer.IndexOutcome.indexed.injEq] at hfirst
      obtain ⟨⟨hn, hh⟩, hst⟩ := hfirst
      rw [if_neg (by simp)] at heq
      unfold Indexer.storeAdd at heq
      split at heq
      · exact absurd heq (by simp)
      · split at heq
        · rw [Except.ok.injEq] at heq
          have hmeta : st₁.metadata = st₀.metadata ++
              (Chunker.chunk_transcript text (some Settings.CHUNK_TOKEN_TARGET)
                (some Settings.CHUNK_OVERLAP)).map (fun c =>
                  (⟨vid, c.chunk_id, c.token_estimate, hashFn text, c.text⟩ : Indexer.MD)) := by
            rw [← hst, ← heq]
          have hany : (st₁.metadata.any fun md =>
              decide (md.video_id = vid ∧ md.transcript_hash = hashFn text)) = true := by
            rcases hc : Chunker.chunk_transcript text
                (some Settings.CHUNK_TOKEN_TARGET) (some Settings.CHUNK_OVERLAP) with _ | ⟨c, cs⟩
            · exact absurd hc hchunks
            · rw [hmeta, hc, List.any_append]
              simp
          rw [if_pos ⟨by simp, hany⟩, ← hh]
        · exact absurd heq (by simp)

/-- C6 witness: a one-chunk transcript indexed from an empty store; the
second call over the resulting store is skipped with the stored hash and the
store is untouched. -/
theorem C6_witness :
    Indexer.index_transcript (fun ts => ts.map fun _ => [(1 : ℚ)]) (fun _ => "h0") 1
      ⟨[[1]], [⟨"vid", 1, 3, "h0", "One two three four.".toList⟩]⟩ "vid"
      "One two three four.".toList false
      = .ok (.skippedAlready "h0",
          ⟨[[1]], [⟨"vid", 1, 3, "h0", "One two three four.".toList⟩]⟩) :=
  C6_reindex_idempotent _ _ 1 ⟨[], []⟩ _ "vid" _ 1 "h0" (by decide) rfl

end AskTube
